import Mathlib

/-!
Verification of the VolatilityGame market-making simulation.

Shallow embedding of the Python sources (`market.py`, `market_maker.py`,
`challenges.py`, `game.py`) over exact rationals.  Floating-point values
are modelled as `ℚ`; every random draw the code makes (the gaussian daily
return fed to `math.exp`, the challenge selection, the uniform draws of
the "Economic News" challenge, the 10% random-trade coin and its
direction coin) is passed in explicitly as an oracle input, so every
function is a pure function of its state and its oracle.
-/

/-- `MarketState` from `market.py`: the evolving (price, volatility) pair. -/
structure MarketState where
  price : ℚ
  volatility : ℚ
deriving DecidableEq, Repr

/-- Outcome of evaluating `math.exp(daily_return)` in `Market.update`:
either the exponential was computed (`ok v`, `v` the value of
`exp(daily_return)`), or it raised `OverflowError` (`overflow pos`, with
`pos` recording whether `daily_return > 0`). -/
inductive ExpOutcome where
  | ok (v : ℚ)
  | overflow (pos : Bool)
deriving DecidableEq, Repr

/-- The multiplicative price factor `Market.update` applies: on a normal
draw the code clamps `exp(daily_return)` to `[0.5, 2.0]`
(`max(0.5, min(2.0, price_factor))`); on `OverflowError` it multiplies by
`2.0` when the drawn return was positive and by `0.5` otherwise. -/
def Market.price_factor : ExpOutcome → ℚ
  | .ok v => max 0.5 (min 2.0 v)
  | .overflow pos => if pos then 2.0 else 0.5

/-- `Market.update` from `market.py`: multiply the price by the clamped
factor, then floor the price at `0.01`
(`self.state.price = max(0.01, self.state.price)`); volatility is not
touched. -/
def Market.update (m : MarketState) (o : ExpOutcome) : MarketState :=
  { price := max 0.01 (m.price * Market.price_factor o),
    volatility := m.volatility }

/-- `Market.apply_challenge` from `market.py`: multiply price and
volatility by the given factors, then floor price at `0.01` and
volatility at `0.001`. -/
def Market.apply_challenge (m : MarketState) (price_factor volatility_factor : ℚ) :
    MarketState :=
  { price := max 0.01 (m.price * price_factor),
    volatility := max 0.001 (m.volatility * volatility_factor) }

/-- `SimpleMarketMaker.make_market` from `market_maker.py`:
`spread = price * volatility * spread_multiplier`,
`bid = max(0.01, price - spread)`, `ask = price + spread`.
The constructor default for `spread_multiplier` is `0.1`. -/
def SimpleMarketMaker.make_market (spread_multiplier price volatility : ℚ) : ℚ × ℚ :=
  let spread := price * volatility * spread_multiplier
  let bid := max 0.01 (price - spread)
  let ask := price + spread
  (bid, ask)

/-- One draw of `ChallengeManager.get_random_challenge` from
`challenges.py`: which of the five catalog entries was selected, and for
"Economic News" the two `random.uniform` draws its effect makes. -/
inductive ChallengeDraw where
  | volatilitySpike
  | marketCrash
  | bullRun
  | calmMarkets
  | economicNews (u1 u2 : ℚ)
deriving DecidableEq, Repr

/-- The `name` field of the drawn challenge. -/
def ChallengeDraw.name : ChallengeDraw → String
  | .volatilitySpike => "Volatility Spike"
  | .marketCrash => "Market Crash"
  | .bullRun => "Bull Run"
  | .calmMarkets => "Calm Markets"
  | .economicNews _ _ => "Economic News"

/-- The `effect` lambda of each challenge in `challenges.py`, applied to
the current (price, volatility).  For "Economic News" the two uniform
draws are the oracle values carried by the constructor. -/
def ChallengeDraw.effect : ChallengeDraw → ℚ → ℚ → ℚ × ℚ
  | .volatilitySpike, p, v => (p, v * 2)
  | .marketCrash, p, v => (p * 0.8, v * 1.5)
  | .bullRun, p, v => (p * 1.2, v * 1.2)
  | .calmMarkets, p, v => (p, v * 0.5)
  | .economicNews u1 u2, p, v => (p * u1, v * u2)

/-- `ChallengeManager.apply_challenge` from `challenges.py` with the
random selection passed in: returns the new price, the new volatility
and the applied challenge. -/
def ChallengeManager.apply_challenge (c : ChallengeDraw) (price volatility : ℚ) :
    (ℚ × ℚ) × ChallengeDraw :=
  (c.effect price volatility, c)

/-- `TradeResult` from `game.py`. -/
structure TradeResult where
  trade_type : String
  price : ℚ
  quantity : ℕ
deriving DecidableEq, Repr

/-- One entry of `Game.daily_results`: the `(day, bid, ask, pnl, challenge)`
tuple appended by `Game.log_daily_results`. -/
structure DayRecord where
  day : ℕ
  bid : ℚ
  ask : ℚ
  pnl : ℚ
  challenge : String
deriving DecidableEq, Repr

/-- The mutable fields of `Game` that evolve over a run. -/
structure GameState where
  market : MarketState
  total_pnl : ℚ
  daily_results : List DayRecord
deriving DecidableEq, Repr

/-- `Game.__init__`: fresh game over a given market,
`total_pnl = 0.0`, `daily_results = []`. -/
def Game.init (m : MarketState) : GameState :=
  { market := m, total_pnl := 0, daily_results := [] }

/-- `Game.simulate_trades` from `game.py` with the two random draws
passed in: `rand_trade` is whether `random.random() < 0.1` fired, and
`rand_buy` is the `random.choice([True, False])` direction coin. -/
def Game.simulate_trades (bid ask market_price : ℚ) (rand_trade rand_buy : Bool) :
    List TradeResult :=
  let trades : List TradeResult :=
    if market_price ≤ bid * (1 + 0.001) then [⟨"buy", bid, 1⟩]
    else if market_price ≥ ask * (1 - 0.001) then [⟨"sell", ask, 1⟩]
    else []
  if rand_trade then
    trades ++ [if rand_buy then ⟨"buy", bid, 1⟩ else ⟨"sell", ask, 1⟩]
  else trades

/-- `Game.calculate_daily_pnl` from `game.py`: sum over trades of
`market_price - trade.price` for buys and `trade.price - market_price`
for sells. -/
def Game.calculate_daily_pnl (trades : List TradeResult) (market_price : ℚ) : ℚ :=
  (trades.map (fun t =>
    if t.trade_type = "buy" then market_price - t.price
    else t.price - market_price)).sum

/-- The per-day oracle: every random draw `Game.simulate_day` consumes. -/
structure DayOracle where
  expOutcome : ExpOutcome
  challenge : ChallengeDraw
  rand_trade : Bool
  rand_buy : Bool
deriving DecidableEq, Repr

/-- `Game.simulate_day` from `game.py`: update the market, apply a random
challenge via relative factors, quote, simulate trades, compute the daily
P&L and append the day record.  Returns the daily P&L together with the
new game state (the caller, `Game.run`, adds the P&L to `total_pnl`). -/
def Game.simulate_day (sm : ℚ) (day : ℕ) (o : DayOracle) (g : GameState) :
    ℚ × GameState :=
  let m1 := Market.update g.market o.expOutcome
  let res := ChallengeManager.apply_challenge o.challenge m1.price m1.volatility
  let new_price := res.1.1
  let new_volatility := res.1.2
  let m2 := Market.apply_challenge m1 (new_price / m1.price) (new_volatility / m1.volatility)
  let ba := SimpleMarketMaker.make_market sm m2.price m2.volatility
  let trades := Game.simulate_trades ba.1 ba.2 m2.price o.rand_trade o.rand_buy
  let daily_pnl := Game.calculate_daily_pnl trades m2.price
  (daily_pnl,
    { market := m2,
      total_pnl := g.total_pnl,
      daily_results := g.daily_results ++ [⟨day, ba.1, ba.2, daily_pnl, res.2.name⟩] })

/-- The `for day in range(1, self.days + 1)` loop of `Game.run`: one
oracle per simulated day, `d` the day counter. -/
def Game.runDays (sm : ℚ) : List DayOracle → ℕ → GameState → GameState
  | [], _, g => g
  | o :: os, d, g =>
    let r := Game.simulate_day sm d o g
    Game.runDays sm os (d + 1) { r.2 with total_pnl := r.2.total_pnl + r.1 }

/-- The streak fold of `Game.get_max_consecutive_positive_days`:
state is `(max_streak, current_streak)`; a positive pnl increments the
current streak and refreshes the max, any other pnl resets the current
streak to zero. -/
def streakStep (p : ℕ × ℕ) (pnl : ℚ) : ℕ × ℕ :=
  if 0 < pnl then (max p.1 (p.2 + 1), p.2 + 1) else (p.1, 0)

/-- `Game.get_max_consecutive_positive_days` as a function of the pnl
sequence: fold `streakStep` from `(0, 0)` and return the max streak. -/
def maxConsecPositive (pnls : List ℚ) : ℕ :=
  (pnls.foldl streakStep (0, 0)).1

/-- `Game.get_max_consecutive_positive_days` from `game.py`, iterating
over the pnl column of `daily_results`. -/
def Game.get_max_consecutive_positive_days (daily_results : List DayRecord) : ℕ :=
  maxConsecPositive (daily_results.map (fun r => r.pnl))

/-- `Game.calculate_score` from `game.py`: start from `total_pnl`,
subtract `10` per day with `pnl < 0`, add `5` per day of the longest
consecutive-positive streak, and return `max(0, score)`. -/
def Game.calculate_score (total_pnl : ℚ) (daily_results : List DayRecord) : ℚ :=
  let score := total_pnl
  let negative_pnl_days := (daily_results.filter (fun r => r.pnl < 0)).length
  let score := score - (negative_pnl_days : ℚ) * 10
  let consecutive_positive_days := Game.get_max_consecutive_positive_days daily_results
  let score := score + (consecutive_positive_days : ℚ) * 5
  max 0 score

/-- `Game.run` from `game.py`: simulate every day, accumulating
`total_pnl`, then return `calculate_score()`. -/
def Game.run (sm : ℚ) (os : List DayOracle) (m : MarketState) : ℚ :=
  let g := Game.runDays sm os 1 (Game.init m)
  Game.calculate_score g.total_pnl g.daily_results

/-- The post-challenge market state of one simulated day. -/
def dayPost (o : DayOracle) (m : MarketState) : MarketState :=
  let m1 := Market.update m o.expOutcome
  let res := ChallengeManager.apply_challenge o.challenge m1.price m1.volatility
  Market.apply_challenge m1 (res.1.1 / m1.price) (res.1.2 / m1.volatility)

/-- The quotes of one simulated day. -/
def dayQuote (sm : ℚ) (o : DayOracle) (m : MarketState) : ℚ × ℚ :=
  SimpleMarketMaker.make_market sm (dayPost o m).price (dayPost o m).volatility

/-- The daily P&L of one simulated day. -/
def dayPnl (sm : ℚ) (o : DayOracle) (m : MarketState) : ℚ :=
  Game.calculate_daily_pnl
    (Game.simulate_trades (dayQuote sm o m).1 (dayQuote sm o m).2 (dayPost o m).price
      o.rand_trade o.rand_buy)
    (dayPost o m).price

/-- Modelled from the spec: directly setting the challenge's absolute
target values and then flooring price at `0.01` and volatility at
`0.001`, the state the factor indirection is meant to reach. -/
def applyChallengeDirectSpec (new_price new_volatility : ℚ) : MarketState :=
  { price := max 0.01 new_price, volatility := max 0.001 new_volatility }

/-! ### Helper lemmas about the streak fold -/

/-- Folding `streakStep` from `(m, c)` instead of `(0, c)` only lifts the
max-streak component by `max m ·` and leaves the current streak alone. -/
lemma streak_foldl_shift (l : List ℚ) : ∀ m c : ℕ,
    (l.foldl streakStep (m, c)).1 = max m (l.foldl streakStep (0, c)).1 ∧
    (l.foldl streakStep (m, c)).2 = (l.foldl streakStep (0, c)).2 := by
  induction l with
  | nil => intro m c; simp
  | cons p l ih =>
    intro m c
    by_cases hp : (0 : ℚ) < p
    · simp only [List.foldl_cons, streakStep, if_pos hp, Nat.zero_max]
      refine ⟨?_, ((ih (max m (c + 1)) (c + 1)).2).trans ((ih (c + 1) (c + 1)).2).symm⟩
      rw [(ih (max m (c + 1)) (c + 1)).1, (ih (c + 1) (c + 1)).1, Nat.max_assoc]
    · simp only [List.foldl_cons, streakStep, if_neg hp]
      exact ih m 0

/-- Over an all-positive tail, the fold extends the current streak by the
length of the tail (given the invariant `c ≤ m` that the loop maintains). -/
lemma streak_foldl_all_pos (l : List ℚ) : ∀ m c : ℕ, c ≤ m → (∀ p ∈ l, 0 < p) →
    l.foldl streakStep (m, c) = (max m (c + l.length), c + l.length) := by
  induction l with
  | nil =>
    intro m c hcm _
    simp [Nat.max_eq_left hcm]
  | cons p l ih =>
    intro m c hcm hall
    have hp : (0 : ℚ) < p := hall p (List.mem_cons_self p l)
    simp only [List.foldl_cons, streakStep, if_pos hp]
    rw [ih (max m (c + 1)) (c + 1) (le_max_right _ _)
      (fun q hq => hall q (List.mem_cons_of_mem _ hq))]
    have h1 : max (max m (c + 1)) (c + 1 + l.length) = max m (c + (p :: l).length) := by
      simp only [List.length_cons]
      omega
    have h2 : c + 1 + l.length = c + (p :: l).length := by
      simp only [List.length_cons]
      omega
    rw [h1, h2]

/-! ### Helper lemmas about the simulation loop -/

/-- `Game.simulate_day` unpacked into its components. -/
lemma simulate_day_eq (sm : ℚ) (d : ℕ) (o : DayOracle) (g : GameState) :
    Game.simulate_day sm d o g =
      (dayPnl sm o g.market,
        { market := dayPost o g.market,
          total_pnl := g.total_pnl,
          daily_results := g.daily_results ++
            [⟨d, (dayQuote sm o g.market).1, (dayQuote sm o g.market).2,
              dayPnl sm o g.market, o.challenge.name⟩] }) := rfl

/-- Running the loop appends one record per oracle, with day numbers
counting up from the starting day, and accumulates into `total_pnl`
exactly the sum of the appended records' pnl fields. -/
lemma runDays_spec (sm : ℚ) (os : List DayOracle) : ∀ (d : ℕ) (g : GameState),
    ∃ t : List DayRecord,
      (Game.runDays sm os d g).daily_results = g.daily_results ++ t ∧
      t.map (fun r => r.day) = List.range' d os.length ∧
      (Game.runDays sm os d g).total_pnl = g.total_pnl + (t.map (fun r => r.pnl)).sum := by
  induction os with
  | nil =>
    intro d g
    exact ⟨[], by simp [Game.runDays], by simp [List.range'], by simp [Game.runDays]⟩
  | cons o os ih =>
    intro d g
    obtain ⟨t, ht1, ht2, ht3⟩ := ih (d + 1)
      { market := dayPost o g.market,
        total_pnl := g.total_pnl + dayPnl sm o g.market,
        daily_results := g.daily_results ++
          [⟨d, (dayQuote sm o g.market).1, (dayQuote sm o g.market).2,
            dayPnl sm o g.market, o.challenge.name⟩] }
    refine ⟨⟨d, (dayQuote sm o g.market).1, (dayQuote sm o g.market).2,
      dayPnl sm o g.market, o.challenge.name⟩ :: t, ?_, ?_, ?_⟩
    · rw [show Game.runDays sm (o :: os) d g = Game.runDays sm os (d + 1)
        { market := dayPost o g.market,
          total_pnl := g.total_pnl + dayPnl sm o g.market,
          daily_results := g.daily_results ++
            [⟨d, (dayQuote sm o g.market).1, (dayQuote sm o g.market).2,
              dayPnl sm o g.market, o.challenge.name⟩] } from rfl, ht1]
      simp
    · simp only [List.map_cons, ht2, List.length_cons, List.range']
    · rw [show Game.runDays sm (o :: os) d g = Game.runDays sm os (d + 1)
        { market := dayPost o g.market,
          total_pnl := g.total_pnl + dayPnl sm o g.market,
          daily_results := g.daily_results ++
            [⟨d, (dayQuote sm o g.market).1, (dayQuote sm o g.market).2,
              dayPnl sm o g.market, o.challenge.name⟩] } from rfl, ht3]
      simp only [List.map_cons, List.sum_cons]
      ring

/-! ### Claim theorems -/

/-- C6: the longest-positive-streak computation counts only days with
`pnl > 0`: any day with `pnl ≤ 0` (zero included) breaks the streak, so
the result over a list split at such a day is the max of the two sides,
an all-positive list scores its own length, and the sequence
`[1, 2, -1, 3, 4, 5, -1]` scores 3. -/
theorem streak_resets_on_nonpos_C6 :
    (∀ (l₁ l₂ : List ℚ) (x : ℚ), x ≤ 0 →
      maxConsecPositive (l₁ ++ x :: l₂) = max (maxConsecPositive l₁) (maxConsecPositive l₂))
    ∧ (∀ l : List ℚ, (∀ p ∈ l, 0 < p) → maxConsecPositive l = l.length)
    ∧ maxConsecPositive [1, 2, -1, 3, 4, 5, -1] = 3 := by
  refine ⟨?_, ?_, ?_⟩
  · intro l₁ l₂ x hx
    unfold maxConsecPositive
    rw [List.foldl_append, List.foldl_cons]
    have hx' : ¬ (0 : ℚ) < x := not_lt.mpr hx
    simp only [streakStep, if_neg hx']
    exact (streak_foldl_shift l₂ _ 0).1
  · intro l h
    unfold maxConsecPositive
    rw [streak_foldl_all_pos l 0 0 le_rfl h]
    simp
  · norm_num [maxConsecPositive, streakStep, List.foldl]

/-- C6 witness: the split law applied at `l₁ = [1]`, `x = -1`, `l₂ = [2]`. -/
theorem streak_resets_on_nonpos_C6_witness :
    (-1 : ℚ) ≤ 0 ∧
    maxConsecPositive ([1] ++ (-1 : ℚ) :: [2]) =
      max (maxConsecPositive [1]) (maxConsecPositive [2]) :=
  ⟨by norm_num, streak_resets_on_nonpos_C6.1 [1] [2] (-1) (by norm_num)⟩

/-- C4: a single `Market.update` leaves volatility unchanged, leaves the
price at or above `0.01`, and the multiplicative factor it applies always
lies in `[0.5, 2.0]`; on exponentiation overflow the factor is `2.0` when
the drawn return was positive and `0.5` otherwise. -/
theorem update_factor_clamped_C4 : ∀ (m : MarketState) (o : ExpOutcome),
    (Market.update m o).volatility = m.volatility ∧
    0.01 ≤ (Market.update m o).price ∧
    0.5 ≤ Market.price_factor o ∧ Market.price_factor o ≤ 2 ∧
    (∀ pos : Bool, Market.price_factor (.overflow pos) = if pos then 2 else 0.5) := by
  intro m o
  refine ⟨rfl, le_max_left _ _, ?_, ?_, ?_⟩
  · cases o with
    | ok v => exact le_max_left _ _
    | overflow pos => cases pos <;> norm_num [Market.price_factor]
  · cases o with
    | ok v =>
      refine max_le (by norm_num) (le_trans (min_le_left _ _) (by norm_num))
    | overflow pos => cases pos <;> norm_num [Market.price_factor]
  · intro pos
    cases pos <;> norm_num [Market.price_factor]

/-- C3: the market-state invariant `price ≥ 0.01 ∧ volatility ≥ 0.001` is
preserved by `Market.update` and established unconditionally by
`Market.apply_challenge`, for any factor inputs including zero or
negative factors. -/
theorem market_invariant_C3 :
    (∀ (m : MarketState) (o : ExpOutcome), 0.01 ≤ m.price → 0.001 ≤ m.volatility →
      0.01 ≤ (Market.update m o).price ∧ 0.001 ≤ (Market.update m o).volatility)
    ∧ (∀ (m : MarketState) (pf vf : ℚ),
      0.01 ≤ (Market.apply_challenge m pf vf).price ∧
      0.001 ≤ (Market.apply_challenge m pf vf).volatility) := by
  constructor
  · intro m o _ hv
    exact ⟨le_max_left _ _, hv⟩
  · intro m pf vf
    exact ⟨le_max_left _ _, le_max_left _ _⟩

/-- C3 witness: preservation applied at the configured initial state
`(100, 0.02)` with a unit exponential draw. -/
theorem market_invariant_C3_witness :
    ((0.01 : ℚ) ≤ 100 ∧ (0.001 : ℚ) ≤ 0.02) ∧
    0.01 ≤ (Market.update ⟨100, 0.02⟩ (.ok 1)).price ∧
    0.001 ≤ (Market.update ⟨100, 0.02⟩ (.ok 1)).volatility :=
  ⟨⟨by norm_num, by norm_num⟩,
    market_invariant_C3.1 ⟨100, 0.02⟩ (.ok 1) (by norm_num) (by norm_num)⟩

/-- C2 counterexample: the claim quantifies over every `price > 0` and
`volatility > 0`, but at `price = 0.001`, `volatility = 1` (both
positive) the default strategy returns `bid = 0.01 > ask = 0.0011`, so
`bid ≤ ask` fails. -/
theorem make_market_C2_counterexample :
    (0 : ℚ) < 0.001 ∧ (0 : ℚ) < 1 ∧
    ¬ ((SimpleMarketMaker.make_market 0.1 0.001 1).1 ≤
        (SimpleMarketMaker.make_market 0.1 0.001 1).2) := by
  refine ⟨by norm_num, by norm_num, ?_⟩
  norm_num [SimpleMarketMaker.make_market]

/-- C2 amended: for every `price ≥ 0.01` (the floor the market invariant
guarantees) and `volatility > 0`, the default quoting strategy returns
`(bid, ask)` with `spread = price * volatility * 0.1`,
`bid = max(0.01, price - spread)`, `ask = price + spread`, and the result
satisfies both `bid ≤ ask` and `bid ≥ 0.01`. -/
theorem make_market_C2_amended (price volatility : ℚ)
    (hp : 0.01 ≤ price) (hv : 0 < volatility) :
    SimpleMarketMaker.make_market 0.1 price volatility =
      (max 0.01 (price - price * volatility * 0.1), price + price * volatility * 0.1) ∧
    (SimpleMarketMaker.make_market 0.1 price volatility).1 ≤
      (SimpleMarketMaker.make_market 0.1 price volatility).2 ∧
    0.01 ≤ (SimpleMarketMaker.make_market 0.1 price volatility).1 := by
  have hp0 : (0 : ℚ) < price := lt_of_lt_of_le (by norm_num) hp
  have hs : 0 ≤ price * volatility * 0.1 := by positivity
  have hfact : SimpleMarketMaker.make_market 0.1 price volatility =
      (max 0.01 (price - price * volatility * 0.1), price + price * volatility * 0.1) := rfl
  refine ⟨hfact, ?_, ?_⟩
  · rw [hfact]
    exact max_le (by linarith) (by linarith)
  · rw [hfact]
    exact le_max_left _ _

/-- C2 witness: the amended theorem at the configured initial state
`price = 100`, `volatility = 0.02`. -/
theorem make_market_C2_amended_witness :
    ((0.01 : ℚ) ≤ 100 ∧ (0 : ℚ) < 0.02) ∧
    (SimpleMarketMaker.make_market 0.1 100 0.02).1 ≤
      (SimpleMarketMaker.make_market 0.1 100 0.02).2 :=
  ⟨⟨by norm_num, by norm_num⟩,
    (make_market_C2_amended 100 0.02 (by norm_num) (by norm_num)).2.1⟩

/-- C7: for every pre-challenge state satisfying the invariant
(`price ≥ 0.01`, `volatility ≥ 0.001`) and every challenge target
`(new_price, new_volatility)`, the loop's relative-factor indirection
(`priceFactor = new_price / price`, likewise for volatility) followed by
`Market.apply_challenge` lands exactly on the directly-set, floored
target state `(max 0.01 new_price, max 0.001 new_volatility)`. -/
theorem challenge_factor_refinement_C7 (m : MarketState) (new_price new_volatility : ℚ)
    (hp : 0.01 ≤ m.price) (hv : 0.001 ≤ m.volatility) :
    Market.apply_challenge m (new_price / m.price) (new_volatility / m.volatility) =
      applyChallengeDirectSpec new_price new_volatility := by
  have hp0 : m.price ≠ 0 := ne_of_gt (lt_of_lt_of_le (by norm_num) hp)
  have hv0 : m.volatility ≠ 0 := ne_of_gt (lt_of_lt_of_le (by norm_num) hv)
  unfold Market.apply_challenge applyChallengeDirectSpec
  congr 1
  · rw [mul_comm, div_mul_cancel₀ _ hp0]
  · rw [mul_comm, div_mul_cancel₀ _ hv0]

/-- C7 witness: a Market Crash target `(80, 0.03)` from the initial state
`(100, 0.02)` lands on `(80, 0.03)` via the factor indirection. -/
theorem challenge_factor_refinement_C7_witness :
    ((0.01 : ℚ) ≤ 100 ∧ (0.001 : ℚ) ≤ 0.02) ∧
    Market.apply_challenge ⟨100, 0.02⟩ (80 / 100) (0.03 / 0.02) =
      applyChallengeDirectSpec 80 0.03 :=
  ⟨⟨by norm_num, by norm_num⟩,
    challenge_factor_refinement_C7 ⟨100, 0.02⟩ 80 0.03 (by norm_num) (by norm_num)⟩

/-- One unfolding step of the day loop. -/
lemma runDays_cons (sm : ℚ) (o : DayOracle) (os : List DayOracle) (d : ℕ) (g : GameState) :
    Game.runDays sm (o :: os) d g = Game.runDays sm os (d + 1)
      { market := dayPost o g.market,
        total_pnl := g.total_pnl + dayPnl sm o g.market,
        daily_results := g.daily_results ++
          [⟨d, (dayQuote sm o g.market).1, (dayQuote sm o g.market).2,
            dayPnl sm o g.market, o.challenge.name⟩] } := rfl

/-- The post-challenge market state of any day has strictly positive
price and volatility. -/
lemma dayPost_pos (o : DayOracle) (m : MarketState) :
    0 < (dayPost o m).price ∧ 0 < (dayPost o m).volatility := by
  simp only [dayPost, Market.apply_challenge]
  constructor <;> exact lt_of_lt_of_le (by norm_num) (le_max_left _ _)

/-- Strict positivity of price and volatility is preserved by the day
loop. -/
lemma runDays_market_pos (sm : ℚ) (os : List DayOracle) : ∀ (d : ℕ) (g : GameState),
    0 < g.market.price → 0 < g.market.volatility →
    0 < (Game.runDays sm os d g).market.price ∧
    0 < (Game.runDays sm os d g).market.volatility := by
  induction os with
  | nil => intro d g hp hv; exact ⟨hp, hv⟩
  | cons o os ih =>
    intro d g _ _
    rw [runDays_cons]
    exact ih (d + 1) _ (dayPost_pos o g.market).1 (dayPost_pos o g.market).2

/-- C5: with the quotes and the post-challenge market price given, the
deterministic rule fires a single buy unit at bid exactly when
`price ≤ bid * 1.001`, otherwise a single sell unit at ask exactly when
`price ≥ ask * 0.999` (mutually exclusive, buy checked first); when the
10% random-trade coin fires, exactly one extra unit trade at the
corresponding quote is appended; every day yields at most two trades;
and for `bid = 99`, `ask = 101`, `price = 99.05` the deterministic rule
produces a buy at 99. -/
theorem simulate_trades_C5 :
    (∀ (bid ask p : ℚ) (rb : Bool),
      (Game.simulate_trades bid ask p false rb = [⟨"buy", bid, 1⟩] ↔
        p ≤ bid * (1 + 0.001)) ∧
      (Game.simulate_trades bid ask p false rb = [⟨"sell", ask, 1⟩] ↔
        ¬ p ≤ bid * (1 + 0.001) ∧ p ≥ ask * (1 - 0.001)) ∧
      (Game.simulate_trades bid ask p false rb = [] ↔
        ¬ p ≤ bid * (1 + 0.001) ∧ ¬ p ≥ ask * (1 - 0.001)))
    ∧ (∀ (bid ask p : ℚ) (rb : Bool),
      Game.simulate_trades bid ask p true rb =
        Game.simulate_trades bid ask p false rb ++
          [if rb then ⟨"buy", bid, 1⟩ else ⟨"sell", ask, 1⟩])
    ∧ (∀ (bid ask p : ℚ) (rt rb : Bool), (Game.simulate_trades bid ask p rt rb).length ≤ 2)
    ∧ Game.simulate_trades 99 101 99.05 false true = [⟨"buy", 99, 1⟩] := by
  have hdet : ∀ (bid ask p : ℚ) (rb : Bool), Game.simulate_trades bid ask p false rb =
      if p ≤ bid * (1 + 0.001) then [⟨"buy", bid, 1⟩]
      else if p ≥ ask * (1 - 0.001) then [⟨"sell", ask, 1⟩] else [] :=
    fun _ _ _ _ => rfl
  refine ⟨?_, ?_, ?_, ?_⟩
  · intro bid ask p rb
    rw [hdet]
    by_cases h1 : p ≤ bid * (1 + 0.001) <;> by_cases h2 : p ≥ ask * (1 - 0.001) <;>
      simp [h1, h2]
  · intro bid ask p rb
    rfl
  · intro bid ask p rt rb
    cases rt <;> simp only [Game.simulate_trades] <;> split_ifs <;> simp
  · norm_num [Game.simulate_trades]

/-- C8: a run over `D` day oracles processes exactly `D` days: the log
holds exactly one record per day, appended in day order with day fields
`1` through `D`, and the loop only ever appends to the log. -/
theorem run_log_C8 : ∀ (sm : ℚ) (m : MarketState) (os : List DayOracle),
    ((Game.runDays sm os 1 (Game.init m)).daily_results.length = os.length ∧
      (Game.runDays sm os 1 (Game.init m)).daily_results.map (fun r => r.day) =
        List.range' 1 os.length) ∧
    ∀ (d : ℕ) (g : GameState), ∃ t,
      (Game.runDays sm os d g).daily_results = g.daily_results ++ t := by
  intro sm m os
  obtain ⟨t, h1, h2, _⟩ := runDays_spec sm os 1 (Game.init m)
  simp only [Game.init, List.nil_append] at h1
  refine ⟨⟨?_, ?_⟩, ?_⟩
  · simp only [Game.init]
    rw [h1]
    simpa using congrArg List.length h2
  · simp only [Game.init]
    rw [h1]
    exact h2
  · intro d g
    obtain ⟨t', ht, _, _⟩ := runDays_spec sm os d g
    exact ⟨t', ht⟩

/-- C1: after `Game.run` completes over any oracle sequence, the final
score is `max 0 (T - 10 * N + 5 * S)` where `T` is the sum of the
recorded daily P&Ls (the accumulated total), `N` the count of recorded
days with `pnl < 0` and `S` the longest run of consecutive recorded days
with `pnl > 0`; the score is non-negative for every input day-record
sequence; and for `T = 100`, `N = 3`, `S = 4` the score is `90`. -/
theorem run_score_C1 :
    (∀ (sm : ℚ) (m : MarketState) (os : List DayOracle),
      Game.run sm os m =
        max 0 ((((Game.runDays sm os 1 (Game.init m)).daily_results.map fun r => r.pnl).sum)
          - 10 * (((Game.runDays sm os 1 (Game.init m)).daily_results.filter
              fun r => r.pnl < 0).length : ℚ)
          + 5 * (maxConsecPositive ((Game.runDays sm os 1 (Game.init m)).daily_results.map
              fun r => r.pnl) : ℚ)))
    ∧ (∀ (total : ℚ) (results : List DayRecord), 0 ≤ Game.calculate_score total results)
    ∧ Game.calculate_score 100
        [⟨1, 0, 0, 40, "c"⟩, ⟨2, 0, 0, 40, "c"⟩, ⟨3, 0, 0, 40, "c"⟩, ⟨4, 0, 0, 10, "c"⟩,
          ⟨5, 0, 0, -10, "c"⟩, ⟨6, 0, 0, -5, "c"⟩, ⟨7, 0, 0, -15, "c"⟩] = 90 := by
  refine ⟨?_, ?_, ?_⟩
  · intro sm m os
    obtain ⟨t, h1, h2, h3⟩ := runDays_spec sm os 1 (Game.init m)
    simp only [Game.init, List.nil_append, zero_add] at h1 h3
    simp only [Game.run, Game.calculate_score, Game.get_max_consecutive_positive_days,
      Game.init]
    rw [h1, h3]
    ring_nf
  · intro total results
    exact le_max_left _ _
  · norm_num [Game.calculate_score, Game.get_max_consecutive_positive_days,
      maxConsecPositive, streakStep, List.foldl, List.filter]

/-- C10: provided the market starts with positive price and volatility,
the state at the factor-conversion divisions of any simulated day (after
that day's `Market.update`) has `price ≥ 0.01` and strictly positive
volatility, so neither `new_price / price` nor
`new_volatility / volatility` divides by zero. -/
theorem division_safe_C10 (sm : ℚ) (m : MarketState) (os : List DayOracle) (o : DayOracle)
    (hp : 0 < m.price) (hv : 0 < m.volatility) :
    0.01 ≤ (Market.update (Game.runDays sm os 1 (Game.init m)).market o.expOutcome).price ∧
    0 < (Market.update (Game.runDays sm os 1 (Game.init m)).market o.expOutcome).volatility ∧
    (Market.update (Game.runDays sm os 1 (Game.init m)).market o.expOutcome).price ≠ 0 ∧
    (Market.update (Game.runDays sm os 1 (Game.init m)).market o.expOutcome).volatility ≠ 0 := by
  have h := runDays_market_pos sm os 1 (Game.init m) hp hv
  have hpx : (0.01 : ℚ) ≤
      (Market.update (Game.runDays sm os 1 (Game.init m)).market o.expOutcome).price :=
    le_max_left _ _
  have hvx : 0 <
      (Market.update (Game.runDays sm os 1 (Game.init m)).market o.expOutcome).volatility :=
    h.2
  exact ⟨hpx, hvx, ne_of_gt (lt_of_lt_of_le (by norm_num) hpx), ne_of_gt hvx⟩

/-- C10 witness: an empty run from the configured initial state
`(100, 0.02)`, followed by day 1's update with a unit exponential draw. -/
theorem division_safe_C10_witness :
    ((0 : ℚ) < (MarketState.mk 100 0.02).price ∧
      (0 : ℚ) < (MarketState.mk 100 0.02).volatility) ∧
    (Market.update (Game.runDays 0.1 [] 1 (Game.init ⟨100, 0.02⟩)).market
      (ExpOutcome.ok 1)).price ≠ 0 :=
  ⟨⟨by norm_num, by norm_num⟩,
    (division_safe_C10 0.1 ⟨100, 0.02⟩ [] ⟨.ok 1, .calmMarkets, false, false⟩
      (by norm_num) (by norm_num)).2.2.1⟩
